import Mathlib

/-!
Shallow embedding of the startup-funding cleaning and aggregation pipeline
(`scripts/clean_data.py`, `scripts/analyze.py`, `app.py`).

Modelling conventions:
* CSV cells are `Option String`: `none` is a missing/empty cell (pandas `NaN`
  after `read_csv`; an empty CSV field is read as `NaN`), `some s` a present
  string (a whitespace-only field stays a string).
* Monetary amounts are exact rationals `ℚ` standing for the numeric values
  pandas computes; the claims under study are algebraic, and on the inputs
  involved the Python float arithmetic is exact.
* String processing is carried out on `List Char` with structural recursion
  (`charsTrim`, `splitOnChar`, `removeChar`, ...), mirroring the Python
  string methods used by the scripts.
* Python `float(str)` is modelled on finite decimal and scientific literals
  with optional sign and surrounding whitespace (`parseFloatQ`); tokens such
  as "nan"/"inf" do not occur as strings here because `read_csv` already
  turns NA-like tokens into missing cells.
* `pd.to_datetime` with `errors` set to coerce and a `dayfirst` flag is
  modelled on a single token by `to_datetime`: day-first (resp. month-first)
  is a preference with silent fallback to the other field order, exactly as
  in dateutil/pandas; a token invalid under both readings coerces to `none`
  (NaT).
* pandas sorts are modelled by Mathlib's `List.insertionSort`, a stable sort,
  matching `groupby` with sorted keys (ascending), `Series.nlargest` keeping
  first occurrences (stable descending selection) and `value_counts`.
-/

namespace SF

/-! ### Character-list string primitives -/

/-- Python `str.strip()`: drop whitespace from both ends. -/
def charsTrim (cs : List Char) : List Char :=
  ((cs.dropWhile Char.isWhitespace).reverse.dropWhile Char.isWhitespace).reverse

/-- Python `str.split(sep)` for a one-character separator: split into the
(possibly empty) groups between occurrences of `sep`. The empty string
yields `[[]]`, matching Python where an empty investor cell never reaches
`split` (it is `NaN`). -/
def splitOnChar (sep : Char) : List Char → List (List Char)
  | [] => [[]]
  | c :: cs =>
    match splitOnChar sep cs with
    | [] => [[]]
    | g :: gs => if c = sep then [] :: g :: gs else (c :: g) :: gs

/-- Python `str.replace(x, "")`: remove every occurrence of character `x`. -/
def removeChar (x : Char) (cs : List Char) : List Char :=
  cs.filter (fun c => c ≠ x)

/-- Lexicographic comparison of character lists by code point, the order in
which Python compares the strings that pandas group keys are sorted by. -/
def charsLe : List Char → List Char → Bool
  | [], _ => true
  | _ :: _, [] => false
  | a :: as, b :: bs => if a = b then charsLe as bs else decide (a < b)

/-- Lexicographic order on strings (Python string comparison). -/
def strLe (s t : String) : Prop :=
  charsLe s.toList t.toList = true

instance : DecidableRel strLe :=
  fun s t => inferInstanceAs (Decidable (charsLe s.toList t.toList = true))

/-- Numeric value of a digit string. -/
def digitsVal (cs : List Char) : Nat :=
  cs.foldl (fun n c => n * 10 + (c.toNat - 48)) 0

/-- Parse a non-empty all-digit character run as a natural number. -/
def parseNatDigits (cs : List Char) : Option Nat :=
  if cs ≠ [] && cs.all Char.isDigit then some (digitsVal cs) else none

/-! ### Calendar dates and the date normalizer -/

/-- Gregorian leap-year test, as in Python's `datetime`. -/
def isLeapYear (y : Nat) : Bool :=
  (y % 4 == 0 && y % 100 != 0) || (y % 400 == 0)

/-- Number of days of month `m` in year `y`. -/
def daysInMonth (y m : Nat) : Nat :=
  if m = 2 then (if isLeapYear y then 29 else 28)
  else if m = 4 || m = 6 || m = 9 || m = 11 then 30
  else 31

/-- Validity of a (year, month, day) triple as a real calendar date,
as enforced by Python's `datetime` constructor. -/
def validDate (y m d : Nat) : Bool :=
  1 ≤ y && 1 ≤ m && m ≤ 12 && 1 ≤ d && d ≤ daysInMonth y m

/-- A parsed calendar date. -/
structure CalDate where
  year : Nat
  month : Nat
  day : Nat
deriving DecidableEq, Repr

/-- Resolution of a numeric triple `a/b/y` by dateutil/pandas: the preferred
field order (`dayfirst`) is tried first and the other order is a silent
fallback, failing only when neither reading is a real calendar date. -/
def parseDMY (dayfirst : Bool) (a b y : Nat) : Option CalDate :=
  if dayfirst then
    if validDate y b a then some ⟨y, b, a⟩
    else if validDate y a b then some ⟨y, a, b⟩
    else none
  else
    if validDate y a b then some ⟨y, a, b⟩
    else if validDate y b a then some ⟨y, b, a⟩
    else none

/-- Interpret three numeric date components: a four-digit first component is
read year-first (ISO), otherwise the year is last and the first two fields
are resolved by `parseDMY` under the `dayfirst` preference. -/
def parseDateParts (dayfirst : Bool) : List (List Char) → Option CalDate
  | [p1, p2, p3] =>
    match parseNatDigits p1, parseNatDigits p2, parseNatDigits p3 with
    | some n1, some n2, some n3 =>
      if p1.length = 4 then
        if validDate n1 n2 n3 then some ⟨n1, n2, n3⟩ else none
      else parseDMY dayfirst n1 n2 n3
    | _, _, _ => none
  | _ => none

/-- Model of pandas `to_datetime` (errors coerced, with a `dayfirst` flag) on
one token, restricted to the three-component numeric tokens the dataset
uses: `YYYY-MM-DD` / `YYYY/MM/DD` (ISO, year first) and `a-b-y` / `a/b/y`
with the year last. Unparseable tokens coerce to `none` (NaT). -/
def to_datetime (dayfirst : Bool) (s : String) : Option CalDate :=
  let cs := charsTrim s.toList
  match splitOnChar '-' cs with
  | [u] => match splitOnChar '/' u with
    | [_] => none
    | parts => parseDateParts dayfirst parts
  | parts => parseDateParts dayfirst parts

/-! ### Python float parsing and the amount normalizer -/

/-- Mantissa and optional exponent tail of a float literal: `ip` and `fp` are
the integer and fractional digit runs already consumed, `rest` may only be
an exponent part (the letter e or E, an optional sign, digits) or empty. -/
def parseExpTail (sgn : ℚ) (ip fp rest : List Char) : Option ℚ :=
  let mant : ℚ := sgn * ((digitsVal ip : ℚ) + (digitsVal fp : ℚ) / (10 : ℚ) ^ fp.length)
  match rest with
  | [] => some mant
  | e :: r =>
    if e = 'e' ∨ e = 'E' then
      match r with
      | '+' :: rr => (parseNatDigits rr).map (fun n => mant * (10 : ℚ) ^ (n : ℤ))
      | '-' :: rr => (parseNatDigits rr).map (fun n => mant * (10 : ℚ) ^ (-(n : ℤ)))
      | rr => (parseNatDigits rr).map (fun n => mant * (10 : ℚ) ^ (n : ℤ))
    else none

/-- Model of Python `float(s)` on finite decimal/scientific literals:
optional surrounding whitespace, optional sign, digits with an optional
decimal point (at least one digit overall), optional exponent. Returns
`none` where `float` raises `ValueError`. -/
def parseFloatQ (s : String) : Option ℚ :=
  let cs := charsTrim s.toList
  let (sgn, cs1) : ℚ × List Char :=
    match cs with
    | '+' :: r => (1, r)
    | '-' :: r => (-1, r)
    | r => (1, r)
  let ip := cs1.takeWhile Char.isDigit
  let rest1 := cs1.dropWhile Char.isDigit
  match rest1 with
  | '.' :: r2 =>
    let fp := r2.takeWhile Char.isDigit
    let rest2 := r2.dropWhile Char.isDigit
    if ip.isEmpty && fp.isEmpty then none
    else parseExpTail sgn ip fp rest2
  | _ => if ip.isEmpty then none else parseExpTail sgn ip [] rest1

/-- Model of `clean_amount` from `scripts/clean_data.py`: on a present cell,
remove every comma and dollar sign, multiply by a million on a trailing `M`
or `m`, otherwise parse directly; any failure yields the NA sentinel `none`
(the `except` branch). A missing cell (pandas `NaN`) is also modelled as
`none`: Python returns float nan for it, which the caller's `dropna`
removes, so the row is dropped either way. -/
def clean_amount (val : Option String) : Option ℚ :=
  match val with
  | none => none
  | some v =>
    let s := removeChar '$' (removeChar ',' v.toList)
    match s.getLast? with
    | some c =>
      if c = 'M' ∨ c = 'm' then
        (parseFloatQ (String.mk s.dropLast)).map (· * 1000000)
      else parseFloatQ (String.mk s)
    | none => parseFloatQ (String.mk s)

/-! ### Records and the record cleaner -/

/-- Python `str.title()` on ASCII text: an alphabetic character is uppercased
after a non-alphabetic character and lowercased after an alphabetic one. -/
def pyTitleAux : List Char → Bool → List Char
  | [], _ => []
  | c :: cs, prevAlpha =>
    (if c.isAlpha then (if prevAlpha then c.toLower else c.toUpper) else c)
      :: pyTitleAux cs c.isAlpha

/-- Python `str.title()`. -/
def pyTitle (s : String) : String :=
  String.mk (pyTitleAux s.toList false)

/-- Python `str.strip()` on a `String`. -/
def pyStrip (s : String) : String :=
  String.mk (charsTrim s.toList)

/-- A raw CSV row as `read_csv` delivers it: every cell is either missing
(`NaN`, from an empty field) or a string. -/
structure RawRecord where
  date : Option String
  startup : Option String
  industry : Option String
  location : Option String
  amount : Option String
  rtype : Option String
  investor : Option String
deriving Repr

/-- A cleaned record (one row of `scripts/output/startup_funding.csv`).
`yearMonth` stores the period key as `year*100 + month`, whose numeric order
coincides with the lexicographic order of the `YYYY-MM` strings pandas
groups by. The `Type` cell is not part of the `dropna` subset, so it stays
optional; the `Investor` cell passes through the cleaner untouched. -/
structure FundingRecord where
  date : CalDate
  startup : String
  industry : String
  location : String
  amount : ℚ
  rtype : Option String
  yearMonth : Nat
  investor : Option String
deriving Repr

/-- One row of `main` in `scripts/clean_data.py`: parse the date day-first
with coercion, clean the amount, drop the row when any of
`Date, Startup, Industry, Location, Amount` is missing (`dropna`), then
strip+titlecase `Industry`, map the exact `Type` value "Unknown" to "Other"
before titlecasing, and derive `YearMonth`. `Startup` and `Location` are
left exactly as they came in. -/
def cleanRow (rr : RawRecord) : Option FundingRecord :=
  match rr.date.bind (to_datetime true), clean_amount rr.amount,
        rr.startup, rr.industry, rr.location with
  | some d, some a, some st, some ind, some loc =>
    some { date := d
           startup := st
           industry := pyTitle (pyStrip ind)
           location := loc
           amount := a
           rtype := rr.rtype.map (fun t => pyTitle (if t = "Unknown" then "Other" else t))
           yearMonth := d.year * 100 + d.month
           investor := rr.investor }
  | _, _, _, _, _ => none

/-- The cleaned set: `cleanRow` filtered over the raw rows. -/
def cleanRecords (rows : List RawRecord) : List FundingRecord :=
  rows.filterMap cleanRow

end SF

namespace SF

/-! ### Generic grouping and sorting (pandas groupby / nlargest / value_counts) -/

/-- Distinct elements of a list in order of first occurrence (the groups a
pandas groupby forms before sorting its keys). -/
def dedupFirst {K : Type} [DecidableEq K] : List K → List K
  | [] => []
  | a :: l => a :: (dedupFirst l).filter (fun k => k ≠ a)

/-- Sum of the values attached to key `k` (the grouped `Amount` sum). -/
def sumFor {K : Type} [DecidableEq K] (l : List (K × ℚ)) (k : K) : ℚ :=
  ((l.filter (fun p => p.1 = k)).map (fun p => p.2)).sum

/-- Number of occurrences of `k` (the grouped row count). -/
def countFor {K : Type} [DecidableEq K] (l : List K) (k : K) : Nat :=
  (l.filter (fun x => x = k)).length

/-- The value-descending comparison used by `Series.nlargest` and
`value_counts`: sorting stably with it keeps first occurrences ahead
among ties, which is pandas' tie behaviour (`keep` is first). -/
def valDesc {K V : Type} [LinearOrder V] (p q : K × V) : Prop :=
  q.2 ≤ p.2

instance {K V : Type} [LinearOrder V] : DecidableRel (valDesc (K := K) (V := V)) :=
  fun p q => inferInstanceAs (Decidable (q.2 ≤ p.2))

instance {K V : Type} [LinearOrder V] : IsTotal (K × V) valDesc :=
  ⟨fun a b => le_total b.2 a.2⟩

instance {K V : Type} [LinearOrder V] : IsTrans (K × V) valDesc :=
  ⟨fun _ _ _ h1 h2 => le_trans h2 h1⟩

/-- Stable sort of a keyed table by value, descending. -/
def byValueDesc {K V : Type} [LinearOrder V] (t : List (K × V)) : List (K × V) :=
  t.insertionSort valDesc

/-- `Series.nlargest n` with first-occurrence tie keeping: stable descending
sort, then truncation to `n` entries. -/
def nlargestT {K V : Type} [LinearOrder V] (n : Nat) (t : List (K × V)) : List (K × V) :=
  (byValueDesc t).take n

/-- `df.groupby(k)[v].sum()` with default sorted keys: the distinct keys in
ascending `le` order, each paired with its group's sum. -/
def groupSum {K : Type} [DecidableEq K] (le : K → K → Prop) [DecidableRel le]
    (l : List (K × ℚ)) : List (K × ℚ) :=
  ((dedupFirst (l.map (fun p => p.1))).insertionSort le).map (fun k => (k, sumFor l k))

/-- `Series.value_counts()`: occurrence counts per distinct value, sorted
descending by count. -/
def value_counts {K : Type} [DecidableEq K] (l : List K) : List (K × Nat) :=
  byValueDesc ((dedupFirst l).map (fun k => (k, countFor l k)))

/-! ### The aggregation and investor-attribution engines (`scripts/analyze.py`) -/

/-- Funding by year-month: `df.groupby(YearMonth)[Amount].sum()`. The group
keys come out in ascending `YYYY-MM` order (numeric order of `yearMonth`). -/
def byYearMonth (l : List FundingRecord) : List (Nat × ℚ) :=
  groupSum (· ≤ ·) (l.map (fun r => (r.yearMonth, r.amount)))

/-- Top industries: `df.groupby(Industry)[Amount].sum().nlargest(10)`. -/
def topIndustries (l : List FundingRecord) : List (String × ℚ) :=
  nlargestT 10 (groupSum strLe (l.map (fun r => (r.industry, r.amount))))

/-- Top startups: `df.groupby(Startup)[Amount].sum().nlargest(10)`. -/
def topStartups (l : List FundingRecord) : List (String × ℚ) :=
  nlargestT 10 (groupSum strLe (l.map (fun r => (r.startup, r.amount))))

/-- Top locations: `df[Location].value_counts().nlargest(10)`. -/
def topLocations (l : List FundingRecord) : List (String × Nat) :=
  nlargestT 10 (value_counts (l.map (fun r => r.location)))

/-- The investor-name pieces of one cell: split on commas, then strip each
piece (the `.str.split` and post-explode `.str.strip` steps). Empty pieces
are kept exactly as the code keeps them. -/
def splitInvestors (s : String) : List String :=
  (splitOnChar ',' s.toList).map (fun cs => String.mk (charsTrim cs))

/-- The exploded attribution rows of one record: one `(investor, amount)`
row per listed piece, each credited the record's full amount. A missing
investor cell explodes to a single NaN-keyed row, which every later
groupby/value_counts drops, so it is modelled as no rows. -/
def explodeInv (r : FundingRecord) : List (String × ℚ) :=
  match r.investor with
  | none => []
  | some s => (splitInvestors s).map (fun v => (v, r.amount))

/-- All exploded attribution rows of the cleaned set, in row order. -/
def invRows : List FundingRecord → List (String × ℚ)
  | [] => []
  | r :: l => explodeInv r ++ invRows l

/-- Top investors by total attributed funding:
`df_in.groupby(InvestorName)[Amount].sum().nlargest(10)`. -/
def invByFunding (l : List FundingRecord) : List (String × ℚ) :=
  nlargestT 10 (groupSum strLe (invRows l))

/-- Top investors by round count:
`df_in[InvestorName].value_counts().nlargest(10)`. -/
def invByRounds (l : List FundingRecord) : List (String × Nat) :=
  nlargestT 10 (value_counts ((invRows l).map (fun p => p.1)))

/-! ### The dashboard loading pipeline (`app.py`, steps 3 to 5) -/

/-- One uploaded CSV row: the `Date` and `Amount` cells, which are the only
cells the load pipeline processes row-wise. -/
structure AppRow where
  date : Option String
  amount : Option String
deriving Repr

/-- An uploaded dataframe: its column names and its rows. -/
structure AppDf where
  cols : List String
  rows : List AppRow
deriving Repr

/-- Outcome of the `app.py` load pipeline. -/
inductive AppOutcome where
  | keyError : String → AppOutcome
  | dateError : AppOutcome
  | missingColsError : AppOutcome
  | ok : List (CalDate × ℚ) → AppOutcome
deriving DecidableEq, Repr

/-- The columns required by step 5 of `app.py`. -/
def appRequiredCols : List String :=
  ["Date", "Startup", "Industry", "Location", "Amount", "Type", "YearMonth"]

/-- Steps 3 to 5 of `app.py` in source order: parse `Date` with coercion
(month-first preference; a missing `Date` column raises a `KeyError`), stop
with the date error when every date is NaT, coerce `Amount` with
`to_numeric` (a missing `Amount` column raises), drop rows missing either,
and only then check the required columns, stopping with the missing-columns
error. -/
def appRun (df : AppDf) : AppOutcome :=
  if "Date" ∉ df.cols then .keyError "Date"
  else
    let dparsed := df.rows.map (fun r => (r.date.bind (to_datetime false), r.amount))
    if dparsed.all (fun p => p.1.isNone) then .dateError
    else if "Amount" ∉ df.cols then .keyError "Amount"
    else
      let kept := dparsed.filterMap (fun p =>
        match p.1, p.2.bind parseFloatQ with
        | some d, some a => some (d, a)
        | _, _ => none)
      if ¬ (appRequiredCols.all (fun c => decide (c ∈ df.cols))) then .missingColsError
      else .ok kept

end SF

namespace SF

/-! ### Order properties of the lexicographic string comparison -/

theorem charsLe_total : ∀ as bs : List Char, charsLe as bs = true ∨ charsLe bs as = true
  | [], _ => Or.inl rfl
  | _ :: _, [] => Or.inr rfl
  | a :: as, b :: bs => by
    by_cases h : a = b
    · subst h
      simpa only [charsLe, if_pos rfl] using charsLe_total as bs
    · rcases lt_or_gt_of_ne h with hlt | hgt
      · left
        simp [charsLe, h, hlt]
      · right
        simp [charsLe, Ne.symm h, hgt]

theorem charsLe_trans : ∀ as bs cs : List Char,
    charsLe as bs = true → charsLe bs cs = true → charsLe as cs = true
  | [], _, _, _, _ => rfl
  | a :: as, [], _, h1, _ => by simp [charsLe] at h1
  | _ :: _, _ :: _, [], _, h2 => by simp [charsLe] at h2
  | a :: as, b :: bs, c :: cs, h1, h2 => by
    by_cases hab : a = b <;> by_cases hbc : b = c
    · subst hab; subst hbc
      simp only [charsLe, if_pos rfl] at h1 h2 ⊢
      exact charsLe_trans as bs cs h1 h2
    · subst hab
      simp only [charsLe, if_neg hbc] at h2
      simp only [charsLe, if_neg hbc]
      exact h2
    · subst hbc
      simp only [charsLe, if_neg hab] at h1
      simp only [charsLe, if_neg hab]
      exact h1
    · simp only [charsLe, if_neg hab] at h1
      simp only [charsLe, if_neg hbc] at h2
      have hac : a < c := lt_trans (of_decide_eq_true h1) (of_decide_eq_true h2)
      simp [charsLe, ne_of_lt hac, hac]

theorem charsLe_antisymm : ∀ as bs : List Char,
    charsLe as bs = true → charsLe bs as = true → as = bs
  | [], [], _, _ => rfl
  | [], _ :: _, _, h2 => by simp [charsLe] at h2
  | _ :: _, [], h1, _ => by simp [charsLe] at h1
  | a :: as, b :: bs, h1, h2 => by
    by_cases hab : a = b
    · subst hab
      simp only [charsLe, if_pos rfl] at h1 h2
      exact congrArg (a :: ·) (charsLe_antisymm as bs h1 h2)
    · simp only [charsLe, if_neg hab, if_neg (Ne.symm hab)] at h1 h2
      exact absurd (of_decide_eq_true h2) (not_lt_of_gt (of_decide_eq_true h1))

instance : IsTotal String strLe :=
  ⟨fun s t => charsLe_total s.toList t.toList⟩

instance : IsTrans String strLe :=
  ⟨fun s t u => charsLe_trans s.toList t.toList u.toList⟩

instance : IsAntisymm String strLe :=
  ⟨fun s t h1 h2 => by
    cases s; cases t
    exact congrArg String.mk (charsLe_antisymm _ _ h1 h2)⟩

/-! ### Lemmas about grouping -/

theorem mem_dedupFirst {K : Type} [DecidableEq K] {l : List K} {k : K} :
    k ∈ dedupFirst l ↔ k ∈ l := by
  induction l with
  | nil => simp [dedupFirst]
  | cons a l ih =>
    by_cases h : k = a
    · simp [dedupFirst, h]
    · simp [dedupFirst, h, List.mem_filter, ih]

theorem nodup_dedupFirst {K : Type} [DecidableEq K] (l : List K) :
    (dedupFirst l).Nodup := by
  induction l with
  | nil => exact List.nodup_nil
  | cons a l ih =>
    rw [dedupFirst, List.nodup_cons]
    refine ⟨fun hmem => ?_, ih.filter _⟩
    have := (List.mem_filter.mp hmem).2
    simp at this

theorem sumFor_nil {K : Type} [DecidableEq K] (k : K) :
    sumFor ([] : List (K × ℚ)) k = 0 := rfl

theorem sumFor_cons {K : Type} [DecidableEq K] (p : K × ℚ) (l : List (K × ℚ)) (k : K) :
    sumFor (p :: l) k = (if p.1 = k then p.2 else 0) + sumFor l k := by
  by_cases h : p.1 = k
  · simp [sumFor, List.filter_cons, h]
  · simp [sumFor, List.filter_cons, h]

theorem sumFor_append {K : Type} [DecidableEq K] (l1 l2 : List (K × ℚ)) (k : K) :
    sumFor (l1 ++ l2) k = sumFor l1 k + sumFor l2 k := by
  simp [sumFor, List.filter_append]

theorem countFor_eq_count {K : Type} [DecidableEq K] (l : List K) (k : K) :
    countFor l k = (l.filter (fun x => x = k)).length := rfl

theorem sumFor_map_pair {K : Type} [DecidableEq K] (xs : List K) (a : ℚ) (k : K) :
    sumFor (xs.map (fun v => (v, a))) k = (countFor xs k : ℚ) * a := by
  induction xs with
  | nil => simp [sumFor, countFor]
  | cons x xs ih =>
    rw [List.map_cons, sumFor_cons, ih]
    by_cases h : x = k
    · simp only [h, if_pos rfl, countFor, List.filter_cons, decide_eq_true_eq, if_true,
        List.length_cons]
      push_cast
      ring
    · simp [countFor, List.filter_cons, h]

end SF

namespace SF

theorem groupSum_keys {K : Type} [DecidableEq K] (le : K → K → Prop) [DecidableRel le]
    (l : List (K × ℚ)) :
    (groupSum le l).map (fun p => p.1) =
      (dedupFirst (l.map (fun p => p.1))).insertionSort le := by
  simp [groupSum, List.map_map, Function.comp_def]

theorem groupSum_keys_nodup {K : Type} [DecidableEq K] (le : K → K → Prop) [DecidableRel le]
    (l : List (K × ℚ)) : ((groupSum le l).map (fun p => p.1)).Nodup := by
  rw [groupSum_keys]
  exact ((List.perm_insertionSort le _).nodup_iff).mpr (nodup_dedupFirst _)

theorem groupSum_keys_sorted {K : Type} [DecidableEq K] (le : K → K → Prop) [DecidableRel le]
    [IsTotal K le] [IsTrans K le] (l : List (K × ℚ)) :
    ((groupSum le l).map (fun p => p.1)).Pairwise le := by
  rw [groupSum_keys]
  exact List.sorted_insertionSort le _

theorem mem_groupSum_iff {K : Type} [DecidableEq K] (le : K → K → Prop) [DecidableRel le]
    {l : List (K × ℚ)} {p : K × ℚ} :
    p ∈ groupSum le l ↔ p.1 ∈ l.map (fun q => q.1) ∧ p.2 = sumFor l p.1 := by
  unfold groupSum
  rw [List.mem_map]
  constructor
  · rintro ⟨k, hk, rfl⟩
    rw [List.mem_insertionSort, mem_dedupFirst] at hk
    exact ⟨hk, rfl⟩
  · rintro ⟨h1, h2⟩
    refine ⟨p.1, ?_, ?_⟩
    · rw [List.mem_insertionSort, mem_dedupFirst]
      exact h1
    · rw [← h2]

theorem sum_ite_zero {K : Type} [DecidableEq K] (ks : List K) (k0 : K) (c : ℚ)
    (h : k0 ∉ ks) : (ks.map (fun k => if k0 = k then c else 0)).sum = 0 := by
  induction ks with
  | nil => rfl
  | cons a ks ih =>
    have h1 : k0 ≠ a := fun he => h (he ▸ List.mem_cons_self a ks)
    have h2 : k0 ∉ ks := fun hm => h (List.mem_cons_of_mem a hm)
    simp [h1, ih h2]

theorem sum_if_single {K : Type} [DecidableEq K] {ks : List K} (hnd : ks.Nodup) {k0 : K}
    (hk : k0 ∈ ks) (c : ℚ) : (ks.map (fun k => if k0 = k then c else 0)).sum = c := by
  induction ks with
  | nil => cases hk
  | cons a ks ih =>
    rw [List.nodup_cons] at hnd
    rcases List.mem_cons.mp hk with h | h
    · subst h
      simp [sum_ite_zero ks k0 c hnd.1]
    · have h1 : k0 ≠ a := fun he => hnd.1 (he ▸ h)
      simp [h1, ih hnd.2 h]

theorem sum_map_add {K : Type} (ks : List K) (f g : K → ℚ) :
    (ks.map (fun k => f k + g k)).sum = (ks.map f).sum + (ks.map g).sum := by
  induction ks with
  | nil => simp
  | cons a ks ih =>
    simp only [List.map_cons, List.sum_cons, ih]
    ring

theorem sum_sumFor {K : Type} [DecidableEq K] (l : List (K × ℚ)) (ks : List K)
    (hnd : ks.Nodup) (hcov : ∀ p ∈ l, p.1 ∈ ks) :
    (ks.map (fun k => sumFor l k)).sum = (l.map (fun p => p.2)).sum := by
  induction l with
  | nil => simp [sumFor]
  | cons p l ih =>
    have h1 : ∀ q ∈ l, q.1 ∈ ks := fun q hq => hcov q (List.mem_cons_of_mem _ hq)
    calc (ks.map (fun k => sumFor (p :: l) k)).sum
        = (ks.map (fun k => (if p.1 = k then p.2 else 0) + sumFor l k)).sum := by
          simp only [sumFor_cons]
      _ = (ks.map (fun k => if p.1 = k then p.2 else 0)).sum
            + (ks.map (fun k => sumFor l k)).sum := sum_map_add ks _ _
      _ = p.2 + (l.map (fun q => q.2)).sum := by
          rw [sum_if_single hnd (hcov p (List.mem_cons_self p l)), ih h1]
      _ = ((p :: l).map (fun q => q.2)).sum := by simp

theorem groupSum_sum {K : Type} [DecidableEq K] (le : K → K → Prop) [DecidableRel le]
    (l : List (K × ℚ)) :
    ((groupSum le l).map (fun p => p.2)).sum = (l.map (fun p => p.2)).sum := by
  unfold groupSum
  rw [List.map_map]
  have hcomp : ((fun p : K × ℚ => p.2) ∘ fun k => (k, sumFor l k)) = fun k => sumFor l k := rfl
  rw [hcomp]
  rw [List.Perm.sum_eq ((List.perm_insertionSort le _).map (fun k => sumFor l k))]
  exact sum_sumFor l _ (nodup_dedupFirst _)
    (fun p hp => mem_dedupFirst.mpr (List.mem_map.mpr ⟨p, hp, rfl⟩))

/-! ### Lemmas about top-N selection -/

theorem length_nlargestT {K V : Type} [LinearOrder V] (n : Nat) (t : List (K × V)) :
    (nlargestT n t).length ≤ n := by
  rw [nlargestT, List.length_take]
  exact min_le_left n _

theorem pairwise_nlargestT {K V : Type} [LinearOrder V] (n : Nat) (t : List (K × V)) :
    (nlargestT n t).Pairwise (fun p q => q.2 ≤ p.2) :=
  List.Pairwise.sublist (List.take_sublist n _) (List.sorted_insertionSort valDesc t)

theorem nlargestT_all {K V : Type} [LinearOrder V] {n : Nat} {t : List (K × V)}
    (h : t.length ≤ n) : ∀ p ∈ t, p ∈ nlargestT n t := by
  intro p hp
  rw [nlargestT, List.take_of_length_le]
  · exact (List.mem_insertionSort valDesc).mpr hp
  · rw [byValueDesc, List.length_insertionSort]
    exact h

theorem byValueDesc_stable {K V : Type} [LinearOrder V] {t : List (K × V)} {p q : K × V}
    (hsub : List.Sublist [p, q] t) (h : q.2 ≤ p.2) :
    List.Sublist [p, q] (byValueDesc t) :=
  List.pair_sublist_insertionSort h hsub

end SF

namespace SF

/-! ### Lemmas about the record cleaner -/

theorem cleanRow_none_of_date {rr : RawRecord}
    (h : rr.date.bind (to_datetime true) = none) : cleanRow rr = none := by
  unfold cleanRow
  rw [h]

theorem cleanRow_none_of_amount {rr : RawRecord}
    (h : clean_amount rr.amount = none) : cleanRow rr = none := by
  unfold cleanRow
  cases hd : rr.date.bind (to_datetime true) with
  | none => rfl
  | some d => rw [h]

theorem cleanRow_none_of_field {rr : RawRecord}
    (h : rr.startup = none ∨ rr.industry = none ∨ rr.location = none) :
    cleanRow rr = none := by
  unfold cleanRow
  cases hd : rr.date.bind (to_datetime true) with
  | none => rfl
  | some d =>
    cases ha : clean_amount rr.amount with
    | none => rfl
    | some a =>
      rcases h with h | h | h
      · rw [h]
      · rw [h]
        cases rr.startup <;> rfl
      · rw [h]
        cases rr.startup <;> cases rr.industry <;> rfl

theorem cleanRow_some_spec {rr : RawRecord} {fr : FundingRecord}
    (h : cleanRow rr = some fr) :
    rr.date.bind (to_datetime true) = some fr.date
    ∧ clean_amount rr.amount = some fr.amount
    ∧ rr.startup = some fr.startup
    ∧ (∃ ind, rr.industry = some ind ∧ fr.industry = pyTitle (pyStrip ind))
    ∧ rr.location = some fr.location
    ∧ fr.yearMonth = fr.date.year * 100 + fr.date.month
    ∧ fr.investor = rr.investor := by
  unfold cleanRow at h
  cases hd : rr.date.bind (to_datetime true) with
  | none => rw [hd] at h; exact absurd h (by simp)
  | some d =>
    cases ha : clean_amount rr.amount with
    | none => rw [hd, ha] at h; exact absurd h (by simp)
    | some a =>
      cases hs : rr.startup with
      | none => rw [hd, ha, hs] at h; exact absurd h (by simp)
      | some st =>
        cases hi : rr.industry with
        | none => rw [hd, ha, hs, hi] at h; exact absurd h (by simp)
        | some ind =>
          cases hl : rr.location with
          | none => rw [hd, ha, hs, hi, hl] at h; exact absurd h (by simp)
          | some loc =>
            rw [hd, ha, hs, hi, hl] at h
            have hfr := (Option.some.injEq _ _).mp h
            subst hfr
            exact ⟨rfl, rfl, rfl, ⟨ind, rfl, rfl⟩, rfl, rfl, rfl⟩

/-! ### Lemmas about investor explosion -/

theorem invRows_cons (r : FundingRecord) (l : List FundingRecord) :
    invRows (r :: l) = explodeInv r ++ invRows l := rfl

theorem invRows_append (l1 l2 : List FundingRecord) :
    invRows (l1 ++ l2) = invRows l1 ++ invRows l2 := by
  induction l1 with
  | nil => rfl
  | cons r l1 ih => simp [invRows_cons, ih, List.append_assoc]

theorem countFor_eq_zero_of_not_mem {K : Type} [DecidableEq K] {l : List K} {k : K}
    (h : k ∉ l) : countFor l k = 0 := by
  induction l with
  | nil => rfl
  | cons a l ih =>
    have h1 : a ≠ k := fun he => h (he ▸ List.mem_cons_self a l)
    have h2 : k ∉ l := fun hm => h (List.mem_cons_of_mem a hm)
    have h0 := ih h2
    simp only [countFor, List.filter_cons, decide_eq_true_eq] at h0 ⊢
    rw [if_neg h1]
    exact h0

theorem countFor_eq_one_of_nodup_mem {K : Type} [DecidableEq K] {l : List K} {k : K}
    (hnd : l.Nodup) (hk : k ∈ l) : countFor l k = 1 := by
  induction l with
  | nil => cases hk
  | cons a l ih =>
    rw [List.nodup_cons] at hnd
    rcases List.mem_cons.mp hk with h | h
    · subst h
      have h0 : countFor l k = 0 := countFor_eq_zero_of_not_mem hnd.1
      simp only [countFor, List.filter_cons, decide_eq_true_eq] at h0 ⊢
      rw [if_pos trivial, List.length_cons, h0]
    · have h1 : a ≠ k := fun he => hnd.1 (he ▸ h)
      have h0 := ih hnd.2 h
      simp only [countFor, List.filter_cons, decide_eq_true_eq] at h0 ⊢
      rw [if_neg h1]
      exact h0

theorem sum_map_constQ {K : Type} (l : List K) (c : ℚ) :
    (l.map (fun _ => c)).sum = (l.length : ℚ) * c := by
  induction l with
  | nil => simp
  | cons a l ih =>
    simp only [List.map_cons, List.sum_cons, ih, List.length_cons]
    push_cast
    ring

end SF

namespace SF

/-! ### Lemmas about the dashboard load pipeline -/

theorem appRun_not_ok {df : AppDf}
    (h : ¬ appRequiredCols.all (fun c => decide (c ∈ df.cols)) = true) :
    ∀ rows, appRun df ≠ AppOutcome.ok rows := by
  intro rows hok
  simp only [appRun] at hok
  split_ifs at hok

/-! ### Concrete demonstration data -/

/-- A raw row whose amount token is negative but otherwise valid. -/
def negRaw : RawRecord :=
  ⟨some "05/01/2020", some "NegaCorp", some "Tech", some "Pune", some "-5", some "Seed", none⟩

/-- A raw row whose industry cell is whitespace-only (a present string). -/
def wsRaw : RawRecord :=
  ⟨some "05/01/2020", some "BlankCo", some "   ", some "Pune", some "7", some "Seed", none⟩

/-- A raw row whose amount token is non-numeric after stripping. -/
def naRaw : RawRecord :=
  ⟨some "05/01/2020", some "BadAmt", some "Tech", some "Pune", some "N/A", some "Seed", none⟩

/-- A raw row whose date token parses under neither field order. -/
def badDateRaw : RawRecord :=
  ⟨some "xx/01/2020", some "BadDate", some "Tech", some "Pune", some "7", some "Seed", none⟩

/-- A raw row with a missing industry cell. -/
def noIndRaw : RawRecord :=
  ⟨some "05/01/2020", some "NoInd", none, some "Pune", some "7", some "Seed", none⟩

/-- A cleaned record in industry "B", encountered first. -/
def recB : FundingRecord :=
  ⟨⟨2020, 1, 5⟩, "S1", "B", "Mumbai", 100, some "Seed", 202001, none⟩

/-- A cleaned record in industry "A", encountered second, tying with "B". -/
def recA : FundingRecord :=
  ⟨⟨2020, 2, 7⟩, "S2", "A", "Delhi", 100, some "Seed", 202002, none⟩

/-- A cleaned record whose investor cell contains an empty piece. -/
def recX : FundingRecord :=
  ⟨⟨2020, 1, 5⟩, "S3", "T", "Pune", 5, some "Seed", 202001, some "X,,Y"⟩

/-- A cleaned record with two distinct investors and amount 100. -/
def recXY : FundingRecord :=
  ⟨⟨2020, 1, 5⟩, "S4", "T", "Pune", 100, some "Seed", 202001, some "X,Y"⟩

/-- An uploaded dataframe that lacks the required `YearMonth` (and other)
columns and whose only date token is unparseable. -/
def appDemoDf : AppDf :=
  ⟨["Date", "Amount"], [⟨some "notadate", some "5"⟩]⟩

end SF

namespace SF

/-! ### Claim theorems -/

/-- C1: in the investor by-funding rollup, every investor listed in a
record's investors list is credited the record's entire amount (no pro-rata
split): appending a record whose `k` distinct listed investors are the
pieces of its investor cell increases each listed investor's attributed sum
by the full amount, and the total attributed for that record is `k` times
the amount. -/
theorem investor_full_credit (rs : List FundingRecord) (r : FundingRecord) (s : String)
    (hs : r.investor = some s) (hnd : (splitInvestors s).Nodup) :
    (∀ v ∈ splitInvestors s,
      sumFor (invRows (rs ++ [r])) v = sumFor (invRows rs) v + r.amount)
    ∧ ((splitInvestors s).map (fun v => sumFor (invRows [r]) v)).sum
        = ((splitInvestors s).length : ℚ) * r.amount := by
  have hrows : invRows [r] = (splitInvestors s).map (fun v => (v, r.amount)) := by
    simp [invRows, explodeInv, hs]
  have hone : ∀ v ∈ splitInvestors s, sumFor (invRows [r]) v = r.amount := by
    intro v hv
    rw [hrows, sumFor_map_pair, countFor_eq_one_of_nodup_mem hnd hv]
    simp
  constructor
  · intro v hv
    rw [invRows_append, sumFor_append, hone v hv]
  · rw [List.map_congr_left hone, sum_map_constQ]

/-- C1 witness: on a concrete record with amount 100 and investors "X,Y",
investor "X" is credited the full 100. -/
theorem investor_full_credit_witness :
    sumFor (invRows ([] ++ [recXY])) "X" = sumFor (invRows []) "X" + recXY.amount :=
  (investor_full_credit [] recXY "X,Y" rfl (by decide)).1 "X" (by decide)

/-- C2 (amended): every cleaned record has a parseable date and a parseable
amount, and rows whose date or amount fails to normalize are dropped; but
there is no negative-amount invariant check, so a record whose amount
normalizes to a negative value is retained (see the counterexample). -/
theorem cleaned_date_amount_parseable :
    (∀ (rr : RawRecord) (fr : FundingRecord), cleanRow rr = some fr →
       rr.date.bind (to_datetime true) = some fr.date
       ∧ clean_amount rr.amount = some fr.amount)
    ∧ (∀ rr : RawRecord, rr.date.bind (to_datetime true) = none → cleanRow rr = none)
    ∧ (∀ rr : RawRecord, clean_amount rr.amount = none → cleanRow rr = none) := by
  refine ⟨fun rr fr h => ?_, fun rr h => cleanRow_none_of_date h,
    fun rr h => cleanRow_none_of_amount h⟩
  have hspec := cleanRow_some_spec h
  exact ⟨hspec.1, hspec.2.1⟩

/-- C2 witness: a raw row whose date token parses under neither field order
is dropped. -/
theorem cleaned_date_amount_parseable_witness : cleanRow badDateRaw = none :=
  cleaned_date_amount_parseable.2.1 badDateRaw (by decide)

unseal Rat.add Rat.mul Rat.sub Rat.inv in
/-- C2 counterexample: the raw row `negRaw` with amount token "-5" passes the
cleaner and is retained with the negative amount -5, refuting the claim that
records with negative normalized amounts are dropped. -/
theorem cleaned_negative_retained :
    (cleanRow negRaw).map (fun fr => fr.amount) = some (-5)
    ∧ ((-5 : ℚ) < 0)
    ∧ cleanRow negRaw ≠ none := by
  refine ⟨by rfl, by norm_num, ?_⟩
  intro h
  rw [show cleanRow negRaw
      = some ⟨⟨2020, 1, 5⟩, "NegaCorp", "Tech", "Pune", -5, some "Seed", 202001, none⟩
    from by rfl] at h
  cases h

/-- C3 (amended): a raw row with a missing (NaN) startup, industry, or
location cell is dropped by `dropna`; but a whitespace-only cell is a
present string and is not dropped, so cleaned records can carry a
whitespace-only startup or location and an empty industry (see the
counterexample). -/
theorem dropped_when_field_missing : ∀ rr : RawRecord,
    rr.startup = none ∨ rr.industry = none ∨ rr.location = none →
    cleanRow rr = none :=
  fun _ h => cleanRow_none_of_field h

/-- C3 witness: the concrete row with a missing industry cell is dropped. -/
theorem dropped_when_field_missing_witness : cleanRow noIndRaw = none :=
  dropped_when_field_missing noIndRaw (Or.inr (Or.inl rfl))

unseal Rat.add Rat.mul Rat.sub Rat.inv in
/-- C3 counterexample: the raw row `wsRaw` whose industry cell is the
whitespace-only string "   " survives the cleaner (it is not `NaN`, so
`dropna` keeps it), ending up with an empty-after-trim industry, refuting
the claim that such rows are dropped. -/
theorem whitespace_industry_retained :
    (cleanRow wsRaw).map (fun fr => fr.industry) = some ""
    ∧ (cleanRow wsRaw).isSome = true := ⟨by rfl, by rfl⟩

end SF

namespace SF

/-- C4 (amended): the Date Normalizer prefers the day-first reading:
"05/01/2020" parses to 5 January 2020 and ISO tokens are accepted; a token
invalid under both field orders ("32/01/2020") is rejected; but a token
invalid under day-first yet valid month-first is silently reinterpreted
month-first ("05/25/2020" parses to 25 May 2020) rather than rejected.
Day-first preference holds universally: whenever the day-first reading is a
valid date it wins, and a triple invalid under both readings is rejected. -/
theorem dayfirst_preference :
    to_datetime true "05/01/2020" = some ⟨2020, 1, 5⟩
    ∧ to_datetime true "2020-03-07" = some ⟨2020, 3, 7⟩
    ∧ to_datetime true "32/01/2020" = none
    ∧ to_datetime true "05/25/2020" = some ⟨2020, 5, 25⟩
    ∧ (∀ a b y : Nat, validDate y b a = true → parseDMY true a b y = some ⟨y, b, a⟩)
    ∧ (∀ a b y : Nat, validDate y b a = false → validDate y a b = false →
        parseDMY true a b y = none) := by
  refine ⟨by decide, by decide, by decide, by decide, ?_, ?_⟩
  · intro a b y h
    simp [parseDMY, h]
  · intro a b y h1 h2
    simp [parseDMY, h1, h2]

/-- C4 witness: the universal day-first clause applied at the concrete
triple 5/1/2020. -/
theorem dayfirst_preference_witness : parseDMY true 5 1 2020 = some ⟨2020, 1, 5⟩ :=
  dayfirst_preference.2.2.2.2.1 5 1 2020 (by decide)

/-- C4 counterexample: "05/25/2020" is invalid under the day-first reading
(month 25) yet the normalizer does not reject it; it is silently
reinterpreted month-first as 25 May 2020, refuting the claim that every
token invalid under day-first is rejected as unparseable. -/
theorem monthfirst_fallback_accepts :
    to_datetime true "05/25/2020" ≠ none
    ∧ to_datetime true "05/25/2020" = some ⟨2020, 5, 25⟩ := by
  exact ⟨by decide, by decide⟩

/-- C5 (amended): every top-N rollup has at most 10 entries sorted
descending by its metric, and fewer than 10 distinct keys are all returned
with no padding; but the tie order is not first-encountered input order:
the grouped table's keys are sorted ascending before the stable descending
selection, so ties are broken by ascending key order, and a pair already in
key order with tied metrics keeps that order in the sorted output. -/
theorem top_rollups_shape {K V : Type} [DecidableEq K] [LinearOrder V]
    (le : K → K → Prop) [DecidableRel le] [IsTotal K le] [IsTrans K le] :
    (∀ t : List (K × V),
        (nlargestT 10 t).length ≤ 10
        ∧ (nlargestT 10 t).Pairwise (fun p q => q.2 ≤ p.2)
        ∧ (t.length ≤ 10 → ∀ p ∈ t, p ∈ nlargestT 10 t)
        ∧ (∀ p q : K × V, List.Sublist [p, q] t → q.2 ≤ p.2 →
            List.Sublist [p, q] (byValueDesc t)))
    ∧ (∀ l : List (K × ℚ),
        ((groupSum le l).map (fun p => p.1)).Pairwise le
        ∧ ((groupSum le l).map (fun p => p.1)).Nodup) := by
  constructor
  · intro t
    exact ⟨length_nlargestT 10 t, pairwise_nlargestT 10 t,
      fun h p hp => nlargestT_all h p hp,
      fun p q hsub hle => byValueDesc_stable hsub hle⟩
  · intro l
    exact ⟨groupSum_keys_sorted le l, groupSum_keys_nodup le l⟩

unseal Rat.add Rat.mul Rat.sub Rat.inv in
/-- C5 witness: on the concrete two-industry grouped table, the no-padding
clause puts the pair ("A", 100) into the top-10 selection. -/
theorem top_rollups_shape_witness :
    ("A", (100 : ℚ)) ∈ nlargestT 10 (groupSum strLe [("B", (100 : ℚ)), ("A", 100)]) :=
  ((top_rollups_shape (K := String) (V := ℚ) strLe).1
      (groupSum strLe [("B", 100), ("A", 100)])).2.2.1
    (by rw [show groupSum strLe [("B", (100 : ℚ)), ("A", 100)]
          = [("A", 100), ("B", 100)] from by rfl]; decide)
    ("A", 100)
    (by rw [show groupSum strLe [("B", (100 : ℚ)), ("A", 100)]
          = [("A", 100), ("B", 100)] from by rfl]; exact List.mem_cons_self _ _)

unseal Rat.add Rat.mul Rat.sub Rat.inv in
/-- C5 counterexample: industries encountered in input order B then A with
tied sums 100 produce the top table [("A", 100), ("B", 100)] — tie broken
by ascending key, not by first-encountered order, which would have put "B"
first. This refutes the claimed input-order (stable) tie-breaking. -/
theorem top_ties_break_by_key :
    topIndustries [recB, recA] = [("A", 100), ("B", 100)]
    ∧ [recB, recA].map (fun r => r.industry) = ["B", "A"]
    ∧ topIndustries [recB, recA] ≠ [("B", 100), ("A", 100)] := by
  refine ⟨by rfl, by rfl, ?_⟩
  intro h
  rw [show topIndustries [recB, recA] = [("A", 100), ("B", 100)] from by rfl] at h
  have h1 := List.head_eq_of_cons_eq h
  have h2 : "A" = "B" := congrArg Prod.fst h1
  exact absurd h2 (by decide)

/-- C6: the by-period table groups cleaned records by the year-month period
key and sums amounts per period; its rows are in strictly ascending
(chronological) period order for every input list of cleaned records, each
row's value is the sum of the amounts with that period key, and its keys
are exactly the period keys occurring in the records. -/
theorem by_period_chronological (l : List FundingRecord) :
    ((byYearMonth l).map (fun p => p.1)).Pairwise (· < ·)
    ∧ (∀ p ∈ byYearMonth l,
        p.2 = sumFor (l.map (fun r => (r.yearMonth, r.amount))) p.1)
    ∧ (∀ k, k ∈ (byYearMonth l).map (fun p => p.1) ↔ k ∈ l.map (fun r => r.yearMonth)) := by
  refine ⟨?_, fun p hp => ((mem_groupSum_iff _).mp hp).2, fun k => ?_⟩
  · have hs := groupSum_keys_sorted (K := Nat) (· ≤ ·)
      (l.map (fun r => (r.yearMonth, r.amount)))
    have hn := groupSum_keys_nodup (K := Nat) (· ≤ ·)
      (l.map (fun r => (r.yearMonth, r.amount)))
    exact (hs.and hn).imp (fun h => lt_of_le_of_ne h.1 h.2)
  · rw [byYearMonth, groupSum_keys, List.mem_insertionSort, mem_dedupFirst,
      List.map_map]
    rfl

unseal Rat.add Rat.mul Rat.sub Rat.inv in
/-- C6 witness: in the concrete two-record table the row keyed 202001 holds
the sum of the amounts with period 202001. -/
theorem by_period_chronological_witness :
    ((202001, (100 : ℚ)) : Nat × ℚ).2
      = sumFor ([recA, recB].map (fun r => (r.yearMonth, r.amount))) 202001 :=
  (by_period_chronological [recA, recB]).2.1 (202001, 100)
    (by rw [show byYearMonth [recA, recB] = [(202001, 100), (202002, 100)] from by rfl]
        exact List.mem_cons_self _ _)

end SF

namespace SF

unseal Rat.add Rat.mul Rat.sub Rat.inv in
/-- C7: an amount token that is non-numeric after stripping dollar signs and
commas (such as "N/A" or the empty string) makes the total function
`clean_amount` return the NA sentinel `none` (no exception is modelled:
the `except` branch returns NA), the Record Cleaner then drops that row,
and no cleaned record carries a placeholder: every cleaned record's amount
is exactly the value its token parsed to. -/
theorem unparseable_amount_dropped :
    clean_amount (some "N/A") = none
    ∧ clean_amount (some "") = none
    ∧ (∀ rr : RawRecord, clean_amount rr.amount = none → cleanRow rr = none)
    ∧ (∀ (rr : RawRecord) (fr : FundingRecord), cleanRow rr = some fr →
        clean_amount rr.amount = some fr.amount) := by
  refine ⟨by rfl, by rfl, fun rr h => cleanRow_none_of_amount h,
    fun rr fr h => (cleanRow_some_spec h).2.1⟩

unseal Rat.add Rat.mul Rat.sub Rat.inv in
/-- C7 witness: the concrete row with amount token "N/A" is dropped. -/
theorem unparseable_amount_dropped_witness : cleanRow naRaw = none :=
  unparseable_amount_dropped.2.2.1 naRaw (by rfl)

/-- C8 (amended): the investor cell is split on commas and each piece is
trimmed, preserving order and duplicates, and a record with a missing
investor cell contributes no attribution rows; but empty pieces are NOT
dropped — they survive as empty-string investor names (see the
counterexample, where an empty-string key reaches the by-funding table). -/
theorem investor_split_trim :
    splitInvestors "X,,Y" = ["X", "", "Y"]
    ∧ splitInvestors " A , B ,A" = ["A", "B", "A"]
    ∧ (∀ (r : FundingRecord) (l : List FundingRecord), r.investor = none →
        invRows (r :: l) = invRows l) := by
  refine ⟨by decide, by decide, fun r l h => ?_⟩
  simp [invRows_cons, explodeInv, h]

/-- C8 witness: a record with a missing investor cell contributes nothing
to the attribution rows. -/
theorem investor_split_trim_witness : invRows (recB :: []) = invRows [] :=
  investor_split_trim.2.2 recB [] rfl

unseal Rat.add Rat.mul Rat.sub Rat.inv in
/-- C8 counterexample: the record `recX` with investor cell "X,,Y" yields
the pieces ["X", "", "Y"] — the empty piece is kept, not dropped — and the
empty-string investor key appears in the by-funding rollup with full
credit, refuting the claim that empty pieces are dropped and that no
empty-string key ever appears in the investor tables. -/
theorem empty_investor_key_appears :
    ("", (5 : ℚ)) ∈ invByFunding [recX]
    ∧ splitInvestors "X,,Y" ≠ ["X", "Y"] := by
  constructor
  · rw [show invByFunding [recX] = [("", 5), ("X", 5), ("Y", 5)] from by rfl]
    exact List.mem_cons_self _ _
  · decide

/-- C9 (amended): an input lacking a structurally required column still
makes the whole run fail — no `ok` outcome is possible — but the
missing-column report is not issued before row processing: date parsing,
amount coercion and row dropping all run first, and an earlier error (a
missing `Date`/`Amount` key or an all-dates-unparseable input) preempts the
missing-column report entirely (see the counterexample). -/
theorem missing_column_fails_run {df : AppDf}
    (h : ¬ appRequiredCols.all (fun c => decide (c ∈ df.cols)) = true) :
    ∀ rows, appRun df ≠ AppOutcome.ok rows :=
  appRun_not_ok h

/-- C9 witness: the concrete dataframe lacking `YearMonth` cannot load
successfully. -/
theorem missing_column_fails_run_witness : appRun appDemoDf ≠ AppOutcome.ok [] :=
  missing_column_fails_run (by decide) []

unseal Rat.add Rat.mul Rat.sub Rat.inv in
/-- C9 counterexample: `appDemoDf` lacks the required `YearMonth` column,
yet the run fails with the date-parse error — produced after date parsing
already processed the rows — and the missing-column error is never
reported, refuting the claim that the missing column is reported before
any row processing proceeds. -/
theorem date_error_preempts_column_check :
    appRun appDemoDf = AppOutcome.dateError
    ∧ "YearMonth" ∉ appDemoDf.cols := by
  exact ⟨by rfl, by decide⟩

/-- C10: summing the by-period table's values recovers the total amount of
the cleaned set: every cleaned record carries a period key derived from its
date, the period groups partition the cleaned set, and grouping then
summing loses no amount. -/
theorem by_period_sum_preserved :
    (∀ l : List FundingRecord,
      ((byYearMonth l).map (fun p => p.2)).sum = (l.map (fun r => r.amount)).sum)
    ∧ (∀ (rr : RawRecord) (fr : FundingRecord), cleanRow rr = some fr →
        fr.yearMonth = fr.date.year * 100 + fr.date.month) := by
  constructor
  · intro l
    rw [byYearMonth, groupSum_sum, List.map_map]
    rfl
  · intro rr fr h
    exact (cleanRow_some_spec h).2.2.2.2.2.1

unseal Rat.add Rat.mul Rat.sub Rat.inv in
/-- C10 witness: the sum clause evaluated on a concrete two-record cleaned
set, and the period-key derivation clause applied to a concretely cleaned
row. -/
theorem by_period_sum_preserved_witness :
    ((byYearMonth [recA, recB]).map (fun p => p.2)).sum
      = ([recA, recB].map (fun r => r.amount)).sum
    ∧ (202001 : Nat) = 2020 * 100 + 1 :=
  ⟨by_period_sum_preserved.1 [recA, recB],
   by
    have h := by_period_sum_preserved.2 wsRaw
      ⟨⟨2020, 1, 5⟩, "BlankCo", "", "Pune", 7, some "Seed", 202001, none⟩ (by rfl)
    exact h⟩

end SF
